import Mathlib

/-!
A shallow embedding of the snake-game simulation core from `src/snake.rs`.

Modelling conventions:
* `f32` values are embedded as exact rationals (`ℚ`).  All arithmetic the
  game performs on positions, velocities, timer durations and the
  score-to-difficulty quotient involves small integers and fixed constants
  for which `f32` arithmetic is exact (or, for the difficulty floor and the
  timer scaling, for which the rational value is the intended one the source
  expresses); no claim depends on floating-point rounding of large values.
* The random number generator is embedded as an oracle: functions that draw
  random values receive the (already generated) raw draws as arguments.
  `rng.gen_range(-x..=x)` values are raw rationals; the `.round()` the source
  applies is modelled by `mouseNew` via `round : ℚ → ℤ`.
* The food-respawn re-roll loop (`while ... { mouse_bundle = MouseBundle::new(..) }`)
  is unbounded in the source; it is embedded as a search over the finite
  oracle list of draws, returning `none` when every supplied draw is occupied
  (the case in which the source would keep looping).
* Bevy ECS plumbing (queries, commands, events) is embedded as explicit
  state: a `World` record holding the snake segments (in head-to-tail
  spawn/storage order), the food ("mouse") position, the scoreboard, the
  move-timer duration, the buffered input queue and the game state.
  Sound events are returned as an explicit list per system invocation.
* Systems that `unwrap()` the snake head (`move_snake`, `check_collisions`)
  are embedded as `Option`-returning functions that yield `none` on an empty
  snake (where the source would panic).
-/

namespace RustSnake

/-- `const SCREEN_HEIGHT: f32 = 22.0`. -/
def SCREEN_HEIGHT : ℚ := 22

/-- `const SCREEN_WIDTH: f32 = 40.0`. -/
def SCREEN_WIDTH : ℚ := 40

/-- The x/y extent of `const BLOCK_SIZE: Vec3 = Vec3::new(20.0, 20.0, 1.0)`. -/
def BLOCK : ℚ := 20

/-- `const SCORE_DELTA: usize = 100`. -/
def SCORE_DELTA : ℕ := 100

/-- `const SNAKE_STARTING_LENGTH: i32 = 4`. -/
def SNAKE_STARTING_LENGTH : ℕ := 4

/-- `const TIMER_STARTING_DURATION: f32 = 0.16`. -/
def TIMER_STARTING_DURATION : ℚ := 16/100

/-- `const TIMER_SCALING_PERCENTAGE: f32 = 15.0`. -/
def TIMER_SCALING_PERCENTAGE : ℚ := 15

/-- `const SCORE_DIFFICULTY_THRESHOLD: f32 = 500.0`. -/
def SCORE_DIFFICULTY_THRESHOLD : ℚ := 500

/-- `const MAX_INPUT_QUEUE_LENGTH: usize = 2`. -/
def MAX_INPUT_QUEUE_LENGTH : ℕ := 2

/-- `struct Position(Vec2)` — a 2D grid coordinate, `f32`-valued in the
source, embedded as exact rationals. -/
structure Position where
  x : ℚ
  y : ℚ
deriving DecidableEq, Repr

/-- `struct Velocity(Vec2)`. -/
structure Velocity where
  x : ℚ
  y : ℚ
deriving DecidableEq, Repr

/-- `Position::apply_vel`: add the velocity componentwise. -/
def Position.apply_vel (p : Position) (v : Velocity) : Position :=
  { x := p.x + v.x, y := p.y + v.y }

/-- `enum Direction { Left, Right, Down, Up }`. -/
inductive Direction where
  | Left
  | Right
  | Down
  | Up
deriving DecidableEq, Repr

/-- `Direction::velocity`: the unit velocity vector of a direction. -/
def Direction.velocity : Direction → Velocity
  | .Left => ⟨-1, 0⟩
  | .Right => ⟨1, 0⟩
  | .Down => ⟨0, -1⟩
  | .Up => ⟨0, 1⟩

/-- `Direction::reverse`: Left↔Right, Down↔Up. -/
def Direction.reverse : Direction → Direction
  | .Left => .Right
  | .Right => .Left
  | .Down => .Up
  | .Up => .Down

/-- `const SNAKE_STARTING_POSITION: Position = Position::new(0.0, 0.0)`. -/
def SNAKE_STARTING_POSITION : Position := ⟨0, 0⟩

/-- `const SNAKE_STARTING_DIRECTION: Direction = Direction::Right`. -/
def SNAKE_STARTING_DIRECTION : Direction := .Right

/-- A snake segment: the `Snake(u32)` id component together with its
`Position` and `Direction` components. -/
structure Segment where
  id : ℕ
  pos : Position
  dir : Direction
deriving DecidableEq, Repr

/-- `enum GameState { Startup, Running, Paused, GameOver }`. -/
inductive GameState where
  | Startup
  | Running
  | Paused
  | GameOver
deriving DecidableEq, Repr

/-- `enum SoundType { Silence, Grow, DifficultyUp, Failure }`. -/
inductive SoundType where
  | Silence
  | Grow
  | DifficultyUp
  | Failure
deriving DecidableEq, Repr

/-- The subset of `KeyCode` values the game reacts to (all other keys fall
into the wildcard arm of the source's `match`, modelled by `Other`). -/
inductive KeyCode where
  | Left
  | Right
  | Up
  | Down
  | A
  | D
  | W
  | S
  | Space
  | R
  | Other
deriving DecidableEq, Repr

/-- The key-to-direction mapping of the `filter_map` in `move_snake`:
arrow keys and WASD map to directions, everything else to `none`. -/
def keyToDirection : KeyCode → Option Direction
  | .Left | .A => some .Left
  | .Right | .D => some .Right
  | .Up | .W => some .Up
  | .Down | .S => some .Down
  | _ => none

/-- An axis-aligned box given by its centre (the transform translation) and
its full size (the transform scale), as used by `collide`. -/
structure Aabb where
  cx : ℚ
  cy : ℚ
  sx : ℚ
  sy : ℚ
deriving DecidableEq, Repr

/-- `bevy::sprite::collide_aabb::collide`: the two boxes strictly overlap,
i.e. `a_min < b_max` and `a_max > b_min` on both axes (the source returns
`Some(side)` exactly under this condition; only the presence of a collision
matters to the game). -/
def collides (a b : Aabb) : Bool :=
  decide (a.cx - a.sx / 2 < b.cx + b.sx / 2) &&
  decide (a.cx + a.sx / 2 > b.cx - b.sx / 2) &&
  decide (a.cy - a.sy / 2 < b.cy + b.sy / 2) &&
  decide (a.cy + a.sy / 2 > b.cy - b.sy / 2)

/-- The transform of a `BlockBundle` at grid position `p`: translation
`(p.x * BLOCK_SIZE.x, p.y * BLOCK_SIZE.y)`, scale `BLOCK_SIZE`. -/
def blockAabb (p : Position) : Aabb :=
  { cx := p.x * BLOCK, cy := p.y * BLOCK, sx := BLOCK, sy := BLOCK }

/-- `enum WallLocation { Left, Right, Bottom, Top }`. -/
inductive WallLocation where
  | Left
  | Right
  | Bottom
  | Top
deriving DecidableEq, Repr

/-- `WallLocation::points`. -/
def WallLocation.points : WallLocation → (ℚ × ℚ) × (ℚ × ℚ) :=
  let x_pos := SCREEN_WIDTH / 2
  let y_pos := SCREEN_HEIGHT / 2
  fun l => match l with
  | .Left => ((-x_pos, -y_pos), (-x_pos, y_pos))
  | .Right => ((x_pos, y_pos), (x_pos, -y_pos))
  | .Bottom => ((x_pos, -y_pos), (-x_pos, -y_pos))
  | .Top => ((-x_pos, y_pos), (x_pos, y_pos))

/-- `WallLocation::translation` (multiplied by `BLOCK_SIZE`). -/
def WallLocation.translation (l : WallLocation) : ℚ × ℚ :=
  let p := l.points
  (((p.1.1 + p.2.1) / 2) * BLOCK, ((p.1.2 + p.2.2) / 2) * BLOCK)

/-- `WallLocation::scale` (multiplied by `BLOCK_SIZE`). -/
def WallLocation.scale (l : WallLocation) : ℚ × ℚ :=
  let p := l.points
  ((|p.1.1 - p.2.1| + 1) * BLOCK, (|p.1.2 - p.2.2| + 1) * BLOCK)

/-- The transform box of the wall sprite spawned by `WallBundle::new`. -/
def wallAabb (l : WallLocation) : Aabb :=
  { cx := l.translation.1, cy := l.translation.2
    sx := l.scale.1, sy := l.scale.2 }

/-- `MouseBundle::new`: the food position produced from one raw draw of
`rng.gen_range(-x_pos..=x_pos)` / `rng.gen_range(-y_pos..=y_pos)`,
with the `.round()` the source applies. -/
def mouseNew (rx ry : ℚ) : Position :=
  ⟨(round rx : ℤ), (round ry : ℤ)⟩

example : mouseNew 0 0 = ⟨0, 0⟩ := by with_unfolding_all decide
example : collides (blockAabb ⟨0, 0⟩) (blockAabb ⟨0, 0⟩) = true := by with_unfolding_all decide
example : collides (blockAabb ⟨0, 0⟩) (blockAabb ⟨1, 0⟩) = false := by with_unfolding_all decide
example : collides (blockAabb ⟨-20, 0⟩) (wallAabb .Left) = true := by with_unfolding_all decide
example : collides (blockAabb ⟨-19, 0⟩) (wallAabb .Left) = false := by with_unfolding_all decide
example : collides (blockAabb ⟨0, 11⟩) (wallAabb .Top) = true := by with_unfolding_all decide

/-- The game world: the ECS resources and game entities the core mutates.
`snake` is the list of snake segments in spawn/storage order (head first,
as the source's queries iterate them); `mouse` is the food's position;
`score`/`difficulty` form the `Scoreboard` resource; `duration` is the
`MoveTimer`'s current duration in seconds; `queue` is the `Local`
direction queue of `move_snake`; `state` is the `GameState`. -/
structure World where
  snake : List Segment
  mouse : Position
  score : ℕ
  difficulty : ℕ
  duration : ℚ
  queue : List Direction
  state : GameState
deriving DecidableEq, Repr

/-- The snake spawned by `setup`: `SNAKE_STARTING_LENGTH` segments with ids
`0..3`, positions `SNAKE_STARTING_POSITION + i * reverse(dir).velocity`,
all facing `SNAKE_STARTING_DIRECTION`. -/
def initialSnake : List Segment :=
  (List.range SNAKE_STARTING_LENGTH).map fun i =>
    let off := SNAKE_STARTING_DIRECTION.reverse.velocity
    { id := i
      pos := ⟨SNAKE_STARTING_POSITION.x + (i : ℚ) * off.x,
              SNAKE_STARTING_POSITION.y + (i : ℚ) * off.y⟩
      dir := SNAKE_STARTING_DIRECTION }

/-- The `setup` system: spawns the walls (constant), the mouse from one raw
random draw (with no occupancy check), and the initial snake.  The
scoreboard text entity is rendering-only and not modelled. -/
def setupSys (rx ry : ℚ) (w : World) : World :=
  { w with snake := initialSnake, mouse := mouseNew rx ry }

/-- The app's initial world: resources as inserted by `SnakeApp::build`
(score 0, difficulty 0, timer at `TIMER_STARTING_DURATION`, default state
`Startup`, empty input queue) after the `Startup`-schedule `setup` ran. -/
def initialWorld (rx ry : ℚ) : World :=
  setupSys rx ry
    { snake := [], mouse := ⟨0, 0⟩, score := 0, difficulty := 0
      duration := TIMER_STARTING_DURATION, queue := [], state := .Startup }

/-- The enqueue loop of `move_snake`: push each newly pressed direction to
the back of the queue, stopping (`break`) as soon as the queue holds
`MAX_INPUT_QUEUE_LENGTH` entries. -/
def enqueueAll (q : List Direction) : List Direction → List Direction
  | [] => q
  | d :: rest =>
    if q.length = MAX_INPUT_QUEUE_LENGTH then q
    else enqueueAll (q ++ [d]) rest

/-- The drain loop of `move_snake`, run when the timer just finished: pop
from the front until an entry whose reverse differs from the current head
direction is found; apply it and stop.  Returns the remaining queue and the
resulting head direction. -/
def drainQueue : List Direction → Direction → List Direction × Direction
  | [], hd => ([], hd)
  | d :: rest, hd =>
    if d.reverse ≠ hd then (rest, d) else drainQueue rest hd

/-- The movement pass of `move_snake`: in storage (head-to-tail) order,
advance each segment by its own direction's velocity, then overwrite its
direction with the previous segment's pre-tick direction (`prev_dir`),
which is `none` at the head. -/
def movePass : Option Direction → List Segment → List Segment
  | _, [] => []
  | prev, s :: rest =>
    { id := s.id
      pos := s.pos.apply_vel s.dir.velocity
      dir := match prev with | none => s.dir | some d => d }
      :: movePass (some s.dir) rest

/-- The `move_snake` system.  `fired` is `timer.just_finished()` after this
frame's `timer.tick(..)`; `keys` are the keys newly pressed this frame.
Every frame the pressed directions are enqueued; only on a fired frame the
queue is drained into the head's direction and the movement pass runs.
Returns `none` on an empty snake (the source `unwrap`s the head). -/
def moveSnakeSys (fired : Bool) (keys : List KeyCode) (w : World) :
    Option World :=
  match w.snake with
  | [] => none
  | h :: t =>
    let directions := keys.filterMap keyToDirection
    let q1 := enqueueAll w.queue directions
    if fired then
      let p := drainQueue q1 h.dir
      some { w with queue := p.1
                    snake := movePass none ({ h with dir := p.2 } :: t) }
    else
      some { w with queue := q1 }

/-- A collidable entity, in the shape `check_collisions`'s collider query
sees it: a wall, the mouse, or a snake segment. -/
inductive Ent where
  | wall (l : WallLocation)
  | mouseE (p : Position)
  | snakeE (s : Segment)
deriving DecidableEq, Repr

/-- The transform box of a collidable entity. -/
def entAabb : Ent → Aabb
  | .wall l => wallAabb l
  | .mouseE p => blockAabb p
  | .snakeE s => blockAabb s.pos

/-- The `continue` guard of `check_collisions`: a snake segment whose id
equals the head's id is skipped (the head does not collide with itself). -/
def skipEnt (head : Segment) : Ent → Bool
  | .snakeE s => decide (s.id = head.id)
  | _ => false

/-- The collider entities of a world, in spawn/storage order: the four
walls (spawned Left, Top, Right, Bottom by `setup`), then the mouse, then
the snake segments head-to-tail. -/
def colliderList (w : World) : List Ent :=
  [Ent.wall .Left, Ent.wall .Top, Ent.wall .Right, Ent.wall .Bottom]
    ++ [Ent.mouseE w.mouse] ++ w.snake.map Ent.snakeE

/-- The food-respawn loop of `check_collisions`: roll `MouseBundle::new`
and re-roll while the candidate coincides (componentwise `f32` equality)
with some current snake segment position.  `draws` is the oracle list of
successive `MouseBundle::new` results; `none` models the (unbounded) case
that every supplied draw is occupied. -/
def respawnMouse (draws : List Position) (snakeL : List Segment) :
    Option Position :=
  draws.find? fun c =>
    ! snakeL.any fun s => decide (s.pos.x = c.x) && decide (s.pos.y = c.y)

/-- The entity loop of `check_collisions`.  Skips the head itself, tests
AABB overlap with the head, and on overlap either resolves a mouse
collision (returning the freshly rolled replacement position and stopping,
as the source `return`s) or records a pending `GameOver` (`go`) and keeps
iterating, as the source does. -/
def loopEnts (head : Segment) (snakeL : List Segment)
    (draws : List Position) : Bool → List Ent → Option (Option Position × Bool)
  | go, [] => some (none, go)
  | go, e :: rest =>
    if skipEnt head e then loopEnts head snakeL draws go rest
    else if collides (blockAabb head.pos) (entAabb e) then
      match e with
      | .mouseE _ =>
        match respawnMouse draws snakeL with
        | none => none
        | some c => some (some c, go)
      | _ => loopEnts head snakeL draws true rest
    else loopEnts head snakeL draws go rest

/-- The `check_collisions` system.  `raws` is the oracle of raw random
draws for the potential food respawn.  Returns the updated world and the
sound events sent; `none` when the snake is empty (the source `unwrap`s)
or the respawn loop would not terminate on the supplied draws. -/
def checkCollisionsSys (raws : List (ℚ × ℚ)) (w : World) :
    Option (World × List SoundType) :=
  match w.snake with
  | [] => none
  | h :: t =>
    let draws := raws.map fun r => mouseNew r.1 r.2
    match loopEnts h w.snake draws false (colliderList w) with
    | none => none
    | some (none, go) =>
      some ({ w with state := if go then .GameOver else w.state }, [])
    | some (some c, go) =>
      let tail := (h :: t).getLast (List.cons_ne_nil h t)
      let off := tail.dir.reverse.velocity
      some ({ w with
                score := w.score + SCORE_DELTA
                mouse := c
                snake := w.snake ++
                  [{ id := tail.id + 1
                     pos := ⟨tail.pos.x + off.x, tail.pos.y + off.y⟩
                     dir := tail.dir }]
                state := if go then .GameOver else w.state },
            [.Grow])

/-- `(scoreboard.score as f32 / SCORE_DIFFICULTY_THRESHOLD).floor() as usize`. -/
def difficultyOf (score : ℕ) : ℕ :=
  (((score : ℚ) / SCORE_DIFFICULTY_THRESHOLD).floor).toNat

/-- The `update_difficulty` system: recompute the difficulty from the
score; if it differs from the stored difficulty, store it, shrink the
timer duration by `TIMER_SCALING_PERCENTAGE` percent of its current value,
and send a `DifficultyUp` sound event. -/
def updateDifficultySys (w : World) : World × List SoundType :=
  let difficulty := difficultyOf w.score
  if difficulty ≠ w.difficulty then
    ({ w with difficulty := difficulty
              duration := w.duration * (1 - TIMER_SCALING_PERCENTAGE / 100) },
      [.DifficultyUp])
  else (w, [])

/-- The `reset` system, run on exiting `GameOver`: zero the scoreboard and
restore the timer's starting duration. -/
def resetSys (w : World) : World :=
  { w with score := 0, difficulty := 0, duration := TIMER_STARTING_DURATION }

/-- The entity-despawn `OnExit(GameOver)` step (`despawn::<GameComponents>`):
destroys the snake, mouse, walls and scoreboard entities.  The walls are
constant and the single mouse is re-created by the subsequent `setup`; in
this embedding the despawn empties the snake list and the rest is subsumed
by `setupSys` overwriting the respective fields. -/
def despawnGame (w : World) : World :=
  { w with snake := [] }

/-- The full `OnExit(GameOver)` sequence, in the order registered by
`SnakeApp::build`: despawn the game-over overlay (rendering-only), despawn
every game entity, `reset`, then re-run `setup` with a fresh mouse draw. -/
def exitGameOverSeq (rx ry : ℚ) (w : World) : World :=
  setupSys rx ry (resetSys (despawnGame w))

/-- The `handle_state_input` system: Space toggles Startup/Running/Paused,
R restarts from GameOver. -/
def handleStateInput (keys : List KeyCode) (w : World) : World :=
  match w.state with
  | .Startup => if keys.contains .Space then { w with state := .Running } else w
  | .Running => if keys.contains .Space then { w with state := .Paused } else w
  | .Paused => if keys.contains .Space then { w with state := .Running } else w
  | .GameOver => if keys.contains .R then { w with state := .Running } else w

/-- One frame's state handling: apply `handle_state_input`, and when this
leaves `GameOver` run the `OnExit(GameOver)` sequence (`rx`/`ry` is the
raw draw for the `setup` it triggers). -/
def applyStateInput (keys : List KeyCode) (rx ry : ℚ) (w : World) : World :=
  let w1 := handleStateInput keys w
  if w.state = .GameOver ∧ w1.state ≠ .GameOver then exitGameOverSeq rx ry w1
  else w1

/-- The `Running`-gated per-tick pipeline, in the order the spec fixes for
the update schedule: scoreboard display (rendering-only, not modelled),
difficulty update, movement, collision resolution. -/
def runningTick (fired : Bool) (keys : List KeyCode)
    (raws : List (ℚ × ℚ)) (w : World) : Option (World × List SoundType) :=
  let p1 := updateDifficultySys w
  match moveSnakeSys fired keys p1.1 with
  | none => none
  | some w2 =>
    match checkCollisionsSys raws w2 with
    | none => none
    | some p2 => some (p2.1, p1.2 ++ p2.2)

/-- The worlds reachable by the game: the initial world, worlds after a
state-input frame, and worlds after a full `Running` tick. -/
inductive Reachable : World → Prop where
  | start (rx ry : ℚ) : Reachable (initialWorld rx ry)
  | frame (w : World) (keys : List KeyCode) (rx ry : ℚ) :
      Reachable w → Reachable (applyStateInput keys rx ry w)
  | tick (w : World) (fired : Bool) (keys : List KeyCode)
      (raws : List (ℚ × ℚ)) (w' : World) (snds : List SoundType) :
      Reachable w → w.state = .Running →
      runningTick fired keys raws w = some (w', snds) → Reachable w'

/-- A rational is integer-valued when its reduced denominator is 1. -/
def qInt (q : ℚ) : Prop := q.den = 1

/-- A position is on the integer grid when both coordinates are. -/
def IntegralPos (p : Position) : Prop := qInt p.x ∧ qInt p.y

/-- The food spawn range: integer coordinates with
`|x| ≤ SCREEN_WIDTH/2 - 1 = 19` and `|y| ≤ SCREEN_HEIGHT/2 - 1 = 10`
(what `MouseBundle::new` produces). -/
def MouseInRange (p : Position) : Prop :=
  IntegralPos p ∧ -19 ≤ p.x ∧ p.x ≤ 19 ∧ -10 ≤ p.y ∧ p.y ≤ 10

instance (q : ℚ) : Decidable (qInt q) :=
  inferInstanceAs (Decidable (q.den = 1))

instance (p : Position) : Decidable (IntegralPos p) :=
  inferInstanceAs (Decidable (qInt p.x ∧ qInt p.y))

instance (p : Position) : Decidable (MouseInRange p) :=
  inferInstanceAs (Decidable (IntegralPos p ∧ _ ∧ _ ∧ _ ∧ _))

/-- Every segment and the food sit on the integer grid. -/
def IntegralWorld (w : World) : Prop :=
  (∀ s ∈ w.snake, IntegralPos s.pos) ∧ IntegralPos w.mouse

/-- A concrete `Running` world used to instantiate theorems: a two-segment
snake whose head sits on the mouse, its tail one cell away from the left
wall. -/
def eatW : World :=
  { snake := [⟨0, ⟨0, 0⟩, .Right⟩, ⟨1, ⟨-19, 0⟩, .Right⟩]
    mouse := ⟨0, 0⟩, score := 0, difficulty := 0
    duration := 16/100, queue := [], state := .Running }

/-- The world `checkCollisionsSys` produces from `eatW` with oracle draw
`(5, 5)`. -/
def eatW2 : World :=
  { eatW with
      score := 100
      mouse := ⟨5, 5⟩
      snake := eatW.snake ++ [⟨2, ⟨-20, 0⟩, .Right⟩] }

/-- A concrete `Running` world used to instantiate the movement theorems:
a two-segment snake moving right with `[Left, Right]` queued. -/
def moveW : World :=
  { snake := [⟨0, ⟨0, 0⟩, .Right⟩, ⟨1, ⟨-19, 0⟩, .Right⟩]
    mouse := ⟨5, 5⟩, score := 0, difficulty := 0
    duration := 16/100, queue := [.Left, .Right], state := .Running }

/-- The world `moveSnakeSys` produces from `moveW` on a fired tick with no
keys pressed: `Left` is discarded (reverse of the head direction `Right`),
`Right` is applied, the queue empties, both segments advance. -/
def moveW2 : World :=
  { moveW with
      snake := [⟨0, ⟨1, 0⟩, .Right⟩, ⟨1, ⟨-18, 0⟩, .Right⟩]
      queue := [] }

/-- A concrete world whose head overlaps its second snake segment (and not
the mouse), used to instantiate the fatal-collision theorem. -/
def crashW : World :=
  { snake := [⟨0, ⟨3, 4⟩, .Right⟩, ⟨1, ⟨3, 4⟩, .Up⟩]
    mouse := ⟨5, 5⟩, score := 0, difficulty := 0
    duration := 16/100, queue := [], state := .Running }

/-- A concrete world at the difficulty threshold, used to instantiate the
difficulty theorem. -/
def scoreW : World :=
  { snake := [⟨0, ⟨0, 0⟩, .Right⟩], mouse := ⟨5, 5⟩, score := 500
    difficulty := 0, duration := 16/100, queue := [], state := .Running }

/-- A concrete `GameOver` world with stale score, difficulty, timer, snake
and queue, used to instantiate the restart theorem. -/
def gameOverW : World :=
  { snake := [⟨0, ⟨-20, 0⟩, .Left⟩], mouse := ⟨5, 5⟩, score := 300
    difficulty := 1, duration := 1/10, queue := [.Up], state := .GameOver }

section Theorems

set_option maxRecDepth 1000000
set_option maxHeartbeats 2000000

/-! ### Direction facts -/

theorem Direction.reverse_reverse (d : Direction) : d.reverse.reverse = d := by
  cases d <;> rfl

theorem Direction.self_ne_reverse (d : Direction) : d ≠ d.reverse := by
  cases d <;> simp [Direction.reverse]

/-! ### The input-enqueue loop -/

theorem enqueueAll_eq_append_take (q ds : List Direction)
    (hq : q.length ≤ MAX_INPUT_QUEUE_LENGTH) :
    enqueueAll q ds = q ++ ds.take (MAX_INPUT_QUEUE_LENGTH - q.length) := by
  induction ds generalizing q with
  | nil => simp [enqueueAll]
  | cons d rest ih =>
    unfold enqueueAll
    by_cases h : q.length = MAX_INPUT_QUEUE_LENGTH
    · simp [h]
    · have h1 : q.length < MAX_INPUT_QUEUE_LENGTH := lt_of_le_of_ne hq h
      have h2 : (q ++ [d]).length ≤ MAX_INPUT_QUEUE_LENGTH := by
        simp only [List.length_append, List.length_singleton]
        omega
      have h3 : MAX_INPUT_QUEUE_LENGTH - q.length =
          (MAX_INPUT_QUEUE_LENGTH - (q ++ [d]).length) + 1 := by
        simp only [List.length_append, List.length_singleton]
        omega
      rw [if_neg h, ih (q ++ [d]) h2, h3, List.take_succ_cons, List.append_assoc,
        List.singleton_append]

theorem enqueueAll_length_le (q ds : List Direction)
    (hq : q.length ≤ MAX_INPUT_QUEUE_LENGTH) :
    (enqueueAll q ds).length ≤ MAX_INPUT_QUEUE_LENGTH := by
  rw [enqueueAll_eq_append_take q ds hq]
  simp only [List.length_append, List.length_take]
  omega

/-! ### The drain loop -/

theorem drainQueue_snd_eq_find (q : List Direction) (hd : Direction) :
    (drainQueue q hd).2 =
      ((q.find? fun d => decide (d.reverse ≠ hd)).getD hd) := by
  induction q with
  | nil => rfl
  | cons d rest ih =>
    unfold drainQueue
    by_cases h : d.reverse ≠ hd
    · simp [List.find?_cons, h]
    · simp only [List.find?_cons, h]
      simpa [h] using ih

theorem drainQueue_fst_eq (q : List Direction) (hd : Direction) :
    (drainQueue q hd).1 =
      ((q.dropWhile fun d => decide (d.reverse = hd)).drop 1) := by
  induction q with
  | nil => rfl
  | cons d rest ih =>
    unfold drainQueue
    by_cases h : d.reverse ≠ hd
    · simp [List.dropWhile_cons, h]
    · push_neg at h
      simpa [List.dropWhile_cons, h] using ih

theorem drainQueue_ne_reverse (q : List Direction) (hd : Direction) :
    (drainQueue q hd).2 ≠ hd.reverse := by
  induction q with
  | nil =>
    simpa [drainQueue] using fun hcon => Direction.self_ne_reverse hd hcon
  | cons d rest ih =>
    unfold drainQueue
    by_cases h : d.reverse ≠ hd
    · simp only [if_pos h]
      intro hcon
      exact h (by rw [hcon, Direction.reverse_reverse])
    · simpa [h] using ih

/-! ### The movement pass -/

theorem movePass_length (prev : Option Direction) (l : List Segment) :
    (movePass prev l).length = l.length := by
  induction l generalizing prev with
  | nil => rfl
  | cons s rest ih => simp [movePass, ih]

theorem movePass_getElem_pos (prev : Option Direction) (l : List Segment)
    (i : ℕ) :
    ((movePass prev l)[i]?).map Segment.pos =
      (l[i]?).map fun s => s.pos.apply_vel s.dir.velocity := by
  induction l generalizing prev i with
  | nil => simp [movePass]
  | cons s rest ih =>
    cases i with
    | zero => simp [movePass]
    | succ j => simpa [movePass] using ih (some s.dir) j

theorem movePass_getElem_id (prev : Option Direction) (l : List Segment)
    (i : ℕ) :
    ((movePass prev l)[i]?).map Segment.id = (l[i]?).map Segment.id := by
  induction l generalizing prev i with
  | nil => simp [movePass]
  | cons s rest ih =>
    cases i with
    | zero => simp [movePass]
    | succ j => simpa [movePass] using ih (some s.dir) j

theorem movePass_head_dir (l : List Segment) :
    ((movePass none l)[0]?).map Segment.dir = (l[0]?).map Segment.dir := by
  cases l <;> simp [movePass]

theorem movePass_dir_succ (prev : Option Direction) (l : List Segment)
    (i : ℕ) (h : i + 1 < l.length) :
    ((movePass prev l)[i+1]?).map Segment.dir = (l[i]?).map Segment.dir := by
  induction l generalizing prev i with
  | nil => simp at h
  | cons s rest ih =>
    cases i with
    | zero =>
      cases rest with
      | nil => simp at h
      | cons r rest2 => simp [movePass]
    | succ j =>
      have h2 : j + 1 < rest.length := by
        simpa using h
      simpa [movePass] using ih (some s.dir) j h2

/-! ### Unfolding `moveSnakeSys` -/

theorem moveSnakeSys_not_fired (w : World) (keys : List KeyCode) (w' : World)
    (hmv : moveSnakeSys false keys w = some w') :
    w' = { w with queue := enqueueAll w.queue (keys.filterMap keyToDirection) } := by
  cases hw : w.snake with
  | nil => simp [moveSnakeSys, hw] at hmv
  | cons h t =>
    simp only [moveSnakeSys, hw, Bool.false_eq_true, if_false, Option.some.injEq] at hmv
    exact hmv.symm

theorem moveSnakeSys_fired (w : World) (h : Segment) (t : List Segment)
    (keys : List KeyCode) (w' : World) (hw : w.snake = h :: t)
    (hmv : moveSnakeSys true keys w = some w') :
    w' = { w with
            queue := (drainQueue (enqueueAll w.queue
              (keys.filterMap keyToDirection)) h.dir).1
            snake := movePass none
              ({ h with dir := (drainQueue (enqueueAll w.queue
                (keys.filterMap keyToDirection)) h.dir).2 } :: t) } := by
  simp only [moveSnakeSys, hw, if_true, Option.some.injEq] at hmv
  exact hmv.symm

/-- C2: on a fired tick the snake becomes the movement pass of the
post-drain snake; the pass preserves length and ids, advances every
segment by its own pre-pass direction's unit velocity, leaves the head's
direction unchanged, and gives every later segment the direction of its
predecessor before the pass; on a non-fired frame no segment moves. -/
theorem C2_move_propagation :
    (∀ (w : World) (h : Segment) (t : List Segment) (keys : List KeyCode)
        (w' : World), w.snake = h :: t → moveSnakeSys true keys w = some w' →
        w'.snake = movePass none
          ({ h with dir := (drainQueue (enqueueAll w.queue
            (keys.filterMap keyToDirection)) h.dir).2 } :: t)) ∧
    (∀ (l : List Segment), (movePass none l).length = l.length) ∧
    (∀ (l : List Segment) (i : ℕ),
        ((movePass none l)[i]?).map Segment.pos =
          (l[i]?).map fun s => s.pos.apply_vel s.dir.velocity) ∧
    (∀ (l : List Segment) (i : ℕ),
        ((movePass none l)[i]?).map Segment.id = (l[i]?).map Segment.id) ∧
    (∀ (l : List Segment),
        ((movePass none l)[0]?).map Segment.dir = (l[0]?).map Segment.dir) ∧
    (∀ (l : List Segment) (i : ℕ), i + 1 < l.length →
        ((movePass none l)[i+1]?).map Segment.dir = (l[i]?).map Segment.dir) ∧
    (∀ (w : World) (keys : List KeyCode) (w' : World),
        moveSnakeSys false keys w = some w' → w'.snake = w.snake) :=
  ⟨fun w h t keys w' hw hmv => by rw [moveSnakeSys_fired w h t keys w' hw hmv],
   movePass_length none,
   movePass_getElem_pos none,
   movePass_getElem_id none,
   movePass_head_dir,
   movePass_dir_succ none,
   fun w keys w' hmv => by rw [moveSnakeSys_not_fired w keys w' hmv]⟩

/-- Witness for C2 at the concrete world `moveW`. -/
theorem C2_witness :
    moveW2.snake = movePass none
      ({ (⟨0, ⟨0, 0⟩, .Right⟩ : Segment) with
          dir := (drainQueue (enqueueAll moveW.queue
            (([] : List KeyCode).filterMap keyToDirection))
            Direction.Right).2 } :: [⟨1, ⟨-19, 0⟩, .Right⟩]) ∧
    ((movePass none moveW.snake)[1]?).map Segment.dir =
      (moveW.snake[0]?).map Segment.dir :=
  ⟨C2_move_propagation.1 moveW ⟨0, ⟨0, 0⟩, .Right⟩ [⟨1, ⟨-19, 0⟩, .Right⟩] []
      moveW2 (by with_unfolding_all rfl) (by with_unfolding_all decide),
   C2_move_propagation.2.2.2.2.2.1 moveW.snake 0 (by with_unfolding_all decide)⟩

/-- C3: the queue is drained only on a fired tick; the drain pops from the
front, discards entries whose reverse equals the current head direction,
applies the first legal entry as the new head direction, stops there, and
never produces the reverse of the previous head direction. -/
theorem C3_queue_drain :
    (∀ (q : List Direction) (hd : Direction),
        (drainQueue q hd).2 =
          ((q.find? fun d => decide (d.reverse ≠ hd)).getD hd) ∧
        (drainQueue q hd).1 =
          ((q.dropWhile fun d => decide (d.reverse = hd)).drop 1) ∧
        (drainQueue q hd).2 ≠ hd.reverse) ∧
    (∀ (w : World) (keys : List KeyCode) (w' : World),
        moveSnakeSys false keys w = some w' →
        w'.queue = enqueueAll w.queue (keys.filterMap keyToDirection) ∧
        w'.snake = w.snake) ∧
    (∀ (w : World) (h : Segment) (t : List Segment) (keys : List KeyCode)
        (w' : World), w.snake = h :: t → moveSnakeSys true keys w = some w' →
        w'.queue = (drainQueue (enqueueAll w.queue
          (keys.filterMap keyToDirection)) h.dir).1 ∧
        (w'.snake.head?).map Segment.dir =
          some (drainQueue (enqueueAll w.queue
            (keys.filterMap keyToDirection)) h.dir).2) :=
  ⟨fun q hd => ⟨drainQueue_snd_eq_find q hd, drainQueue_fst_eq q hd,
      drainQueue_ne_reverse q hd⟩,
   fun w keys w' hmv => by rw [moveSnakeSys_not_fired w keys w' hmv]; exact ⟨rfl, rfl⟩,
   fun w h t keys w' hw hmv => by
    rw [moveSnakeSys_fired w h t keys w' hw hmv]
    refine ⟨rfl, ?_⟩
    have := movePass_head_dir
      ({ h with dir := (drainQueue (enqueueAll w.queue
        (keys.filterMap keyToDirection)) h.dir).2 } :: t)
    simp only [List.getElem?_cons_zero, Option.map_some] at this
    rw [← List.head?_eq_getElem?] at this
    simpa using this⟩

/-- Witness for C3 at the concrete world `moveW` (queued `[Left, Right]`
while heading `Right`: `Left` discarded, `Right` applied, queue empties). -/
theorem C3_witness :
    moveW2.queue = (drainQueue (enqueueAll moveW.queue
      (([] : List KeyCode).filterMap keyToDirection)) Direction.Right).1 ∧
    (moveW2.snake.head?).map Segment.dir =
      some (drainQueue (enqueueAll moveW.queue
        (([] : List KeyCode).filterMap keyToDirection)) Direction.Right).2 :=
  C3_queue_drain.2.2 moveW ⟨0, ⟨0, 0⟩, .Right⟩ [⟨1, ⟨-19, 0⟩, .Right⟩] []
    moveW2 (by with_unfolding_all rfl) (by with_unfolding_all decide)

/-- C8: newly pressed movement keys are mapped to directions and appended
to the queue only while it is below `MAX_INPUT_QUEUE_LENGTH`; the queue is
never overwritten, excess inputs are dropped, and the length never exceeds
`MAX_INPUT_QUEUE_LENGTH`. -/
theorem C8_queue_bound (q : List Direction) (keys : List KeyCode)
    (hq : q.length ≤ MAX_INPUT_QUEUE_LENGTH) :
    enqueueAll q (keys.filterMap keyToDirection) =
      q ++ (keys.filterMap keyToDirection).take
        (MAX_INPUT_QUEUE_LENGTH - q.length) ∧
    (enqueueAll q (keys.filterMap keyToDirection)).length ≤
      MAX_INPUT_QUEUE_LENGTH :=
  ⟨enqueueAll_eq_append_take q _ hq, enqueueAll_length_le q _ hq⟩

/-- Witness for C8: three keys pressed with one entry queued — only one is
appended. -/
theorem C8_witness :
    enqueueAll [Direction.Left]
        ([KeyCode.Up, KeyCode.Down, KeyCode.W].filterMap keyToDirection) =
      [Direction.Left] ++
        ([KeyCode.Up, KeyCode.Down, KeyCode.W].filterMap keyToDirection).take
          (MAX_INPUT_QUEUE_LENGTH - [Direction.Left].length) ∧
    (enqueueAll [Direction.Left]
        ([KeyCode.Up, KeyCode.Down, KeyCode.W].filterMap keyToDirection)).length ≤
      MAX_INPUT_QUEUE_LENGTH :=
  C8_queue_bound [Direction.Left] [KeyCode.Up, KeyCode.Down, KeyCode.W]
    (by with_unfolding_all decide)

/-! ### Difficulty -/

theorem difficultyOf_eq_div (s : ℕ) : difficultyOf s = s / 500 := by
  unfold difficultyOf SCORE_DIFFICULTY_THRESHOLD
  rw [Rat.floor_def', ← Rat.floor_def, Int.floor_toNat]
  exact_mod_cast Nat.floor_div_eq_div (α := ℚ) s 500

theorem updateDifficulty_of_eq (w : World)
    (h : difficultyOf w.score = w.difficulty) :
    updateDifficultySys w = (w, []) := by
  simp [updateDifficultySys, h]

theorem updateDifficulty_of_ne (w : World)
    (h : difficultyOf w.score ≠ w.difficulty) :
    updateDifficultySys w =
      ({ w with difficulty := difficultyOf w.score
                duration := w.duration * (85/100) }, [.DifficultyUp]) := by
  unfold updateDifficultySys
  rw [if_pos h]
  norm_num [TIMER_SCALING_PERCENTAGE]

/-- C6: the stored difficulty is recomputed as `floor(score / 500)`; when
it differs from the stored value the duration is multiplied by `0.85` and
one `DifficultyUp` signal is emitted, otherwise nothing changes; the
update is idempotent and difficulty is monotone in the score. -/
theorem C6_difficulty :
    (∀ s : ℕ, difficultyOf s = s / 500) ∧
    (∀ w : World, difficultyOf w.score = w.difficulty →
        updateDifficultySys w = (w, [])) ∧
    (∀ w : World, difficultyOf w.score ≠ w.difficulty →
        updateDifficultySys w =
          ({ w with difficulty := difficultyOf w.score
                    duration := w.duration * (85/100) }, [.DifficultyUp])) ∧
    (∀ w : World,
        updateDifficultySys (updateDifficultySys w).1 =
          ((updateDifficultySys w).1, [])) ∧
    (∀ a b : ℕ, a ≤ b → difficultyOf a ≤ difficultyOf b) := by
  refine ⟨difficultyOf_eq_div, updateDifficulty_of_eq, updateDifficulty_of_ne,
    fun w => ?_, fun a b hab => ?_⟩
  · by_cases h : difficultyOf w.score = w.difficulty
    · rw [updateDifficulty_of_eq w h]
      exact updateDifficulty_of_eq w h
    · rw [updateDifficulty_of_ne w h]
      exact updateDifficulty_of_eq _ rfl
  · rw [difficultyOf_eq_div, difficultyOf_eq_div]
    exact Nat.div_le_div_right hab

/-- Witness for C6: crossing the 500-point threshold updates the stored
difficulty, scales the duration by `0.85` and emits one signal. -/
theorem C6_witness :
    updateDifficultySys scoreW =
      ({ scoreW with difficulty := difficultyOf scoreW.score
                     duration := scoreW.duration * (85/100) },
        [.DifficultyUp]) :=
  C6_difficulty.2.2.1 scoreW (by with_unfolding_all decide)

/-! ### Restart -/

/-- C7: leaving `GameOver` destroys every game entity, resets score,
difficulty and timer duration to their initial values and re-runs the
initial setup, so the resulting world carries nothing from the previous
game except the input queue (a `Local` the source never clears) and the
snake is again exactly the 4-segment starting snake. -/
theorem C7_restart (w : World) (keys : List KeyCode) (rx ry : ℚ)
    (hgo : w.state = .GameOver) (hr : keys.contains .R = true) :
    applyStateInput keys rx ry w =
      { snake := initialSnake, mouse := mouseNew rx ry, score := 0
        difficulty := 0, duration := TIMER_STARTING_DURATION
        queue := w.queue, state := .Running } ∧
    initialSnake.length = SNAKE_STARTING_LENGTH ∧
    SNAKE_STARTING_LENGTH = 4 := by
  have hr2 : KeyCode.R ∈ keys := by simpa using hr
  refine ⟨?_, ?_, rfl⟩
  · simp [applyStateInput, handleStateInput, hgo, hr2, exitGameOverSeq,
      setupSys, resetSys, despawnGame]
  · simp [initialSnake]

/-- Witness for C7 at the concrete stale world `gameOverW`. -/
theorem C7_witness :
    applyStateInput [KeyCode.R] 3 4 gameOverW =
      { snake := initialSnake, mouse := mouseNew 3 4, score := 0
        difficulty := 0, duration := TIMER_STARTING_DURATION
        queue := gameOverW.queue, state := .Running } ∧
    initialSnake.length = SNAKE_STARTING_LENGTH ∧
    SNAKE_STARTING_LENGTH = 4 :=
  C7_restart gameOverW [KeyCode.R] 3 4 (by with_unfolding_all rfl)
    (by with_unfolding_all rfl)

/-! ### Integer-grid geometry -/

theorem qInt_iff (q : ℚ) : qInt q ↔ ∃ z : ℤ, q = (z : ℚ) := by
  unfold qInt
  rw [Rat.den_eq_one_iff]
  exact ⟨fun h => ⟨q.num, h.symm⟩, by rintro ⟨z, rfl⟩; simp⟩

theorem qInt_add (a b : ℚ) (ha : qInt a) (hb : qInt b) : qInt (a + b) := by
  obtain ⟨x, rfl⟩ := (qInt_iff a).1 ha
  obtain ⟨y, rfl⟩ := (qInt_iff b).1 hb
  exact (qInt_iff _).2 ⟨x + y, by push_cast; ring⟩

theorem qInt_intCast (z : ℤ) : qInt (z : ℚ) := Rat.den_intCast z

/-- Two 20×20 blocks at integer grid positions overlap exactly when the
positions are equal. -/
theorem collides_block_iff (p q : Position) (hp : IntegralPos p)
    (hq : IntegralPos q) :
    collides (blockAabb p) (blockAabb q) = true ↔ p = q := by
  obtain ⟨a, ha⟩ := (qInt_iff p.x).1 hp.1
  obtain ⟨b, hb⟩ := (qInt_iff p.y).1 hp.2
  obtain ⟨c, hc⟩ := (qInt_iff q.x).1 hq.1
  obtain ⟨d, hd⟩ := (qInt_iff q.y).1 hq.2
  unfold collides blockAabb BLOCK
  simp only [Bool.and_eq_true, decide_eq_true_eq]
  constructor
  · rintro ⟨⟨⟨h1, h2⟩, h3⟩, h4⟩
    have hac : a = c := by
      rw [ha, hc] at h1 h2
      have i1 : (a : ℚ) < ((c + 1 : ℤ) : ℚ) := by push_cast; linarith
      have i2 : (c : ℚ) < ((a + 1 : ℤ) : ℚ) := by push_cast; linarith
      have i1n : a < c + 1 := by exact_mod_cast i1
      have i2n : c < a + 1 := by exact_mod_cast i2
      omega
    have hbd : b = d := by
      rw [hb, hd] at h3 h4
      have i1 : (b : ℚ) < ((d + 1 : ℤ) : ℚ) := by push_cast; linarith
      have i2 : (d : ℚ) < ((b + 1 : ℤ) : ℚ) := by push_cast; linarith
      have i1n : b < d + 1 := by exact_mod_cast i1
      have i2n : d < b + 1 := by exact_mod_cast i2
      omega
    cases p
    cases q
    simp only at ha hb hc hd
    simp [ha, hb, hc, hd, hac, hbd]
  · rintro rfl
    refine ⟨⟨⟨?_, ?_⟩, ?_⟩, ?_⟩ <;> linarith

/-- A block with both coordinates inside the food spawn range does not
overlap any wall. -/
theorem collides_wall_false (p : Position) (hx1 : -19 ≤ p.x) (hx2 : p.x ≤ 19)
    (hy1 : -10 ≤ p.y) (hy2 : p.y ≤ 10) (l : WallLocation) :
    collides (blockAabb p) (wallAabb l) = false := by
  rw [← Bool.not_eq_true]
  intro hcon
  cases l <;>
    (norm_num [collides, blockAabb, wallAabb, WallLocation.translation,
      WallLocation.scale, WallLocation.points, BLOCK, SCREEN_WIDTH,
      SCREEN_HEIGHT] at hcon) <;>
    linarith [hcon.1.1.1, hcon.1.1.2, hcon.1.2, hcon.2]

/-! ### The collision loop -/

theorem loopEnts_skips_over (head : Segment) (snakeL : List Segment)
    (draws : List Position) (go : Bool) (l1 l2 : List Ent)
    (h : ∀ e ∈ l1, skipEnt head e = true ∨
      collides (blockAabb head.pos) (entAabb e) = false) :
    loopEnts head snakeL draws go (l1 ++ l2) =
      loopEnts head snakeL draws go l2 := by
  induction l1 with
  | nil => rfl
  | cons e rest ih =>
    have htail : ∀ x ∈ rest, skipEnt head x = true ∨
        collides (blockAabb head.pos) (entAabb x) = false :=
      fun x hx => h x (List.mem_cons_of_mem e hx)
    by_cases hsk : skipEnt head e = true
    · rw [List.cons_append]
      simp only [loopEnts]
      rw [if_pos hsk]
      exact ih htail
    · have hnc : collides (blockAabb head.pos) (entAabb e) = false := by
        rcases h e (List.mem_cons_self e rest) with h1 | h2
        · exact absurd h1 hsk
        · exact h2
      rw [List.cons_append]
      simp only [loopEnts]
      rw [if_neg hsk, if_neg (by simp [hnc])]
      exact ih htail

theorem loopEnts_no_mouse (head : Segment) (snakeL : List Segment)
    (draws : List Position) (ents : List Ent) (go : Bool)
    (hm : ∀ p, Ent.mouseE p ∈ ents →
      collides (blockAabb head.pos) (entAabb (Ent.mouseE p)) = false) :
    loopEnts head snakeL draws go ents =
      some (none, go || ents.any fun e => !skipEnt head e &&
        collides (blockAabb head.pos) (entAabb e)) := by
  induction ents generalizing go with
  | nil => simp [loopEnts]
  | cons e rest ih =>
    have hmtail : ∀ p, Ent.mouseE p ∈ rest →
        collides (blockAabb head.pos) (entAabb (Ent.mouseE p)) = false :=
      fun p hp => hm p (List.mem_cons_of_mem e hp)
    simp only [loopEnts]
    by_cases hsk : skipEnt head e = true
    · rw [if_pos hsk, ih _ hmtail]
      simp [List.any_cons, hsk]
    · rw [if_neg hsk]
      by_cases hc : collides (blockAabb head.pos) (entAabb e) = true
      · cases e with
        | mouseE p =>
          exact absurd hc (by simp [hm p (List.mem_cons_self _ _)])
        | wall l =>
          rw [if_pos hc, ih _ hmtail]
          simp [List.any_cons, hsk, hc]
        | snakeE s =>
          rw [if_pos hc, ih _ hmtail]
          simp [List.any_cons, hsk, hc]
      · rw [if_neg hc, ih _ hmtail]
        have hc2 : collides (blockAabb head.pos) (entAabb e) = false :=
          Bool.not_eq_true _ ▸ (by simpa using hc)
        simp [List.any_cons, hc2]

theorem loopEnts_eat_respawn (head : Segment) (snakeL : List Segment)
    (draws : List Position) (ents : List Ent) :
    ∀ (go : Bool) (c : Position) (g2 : Bool),
      loopEnts head snakeL draws go ents = some (some c, g2) →
      respawnMouse draws snakeL = some c := by
  induction ents with
  | nil => intro go c g2 hle; simp [loopEnts] at hle
  | cons e rest ih =>
    intro go c g2 hle
    simp only [loopEnts] at hle
    by_cases hsk : skipEnt head e = true
    · rw [if_pos hsk] at hle
      exact ih go c g2 hle
    · rw [if_neg hsk] at hle
      by_cases hc : collides (blockAabb head.pos) (entAabb e) = true
      · rw [if_pos hc] at hle
        cases e with
        | mouseE p =>
          cases hr : respawnMouse draws snakeL with
          | none => rw [hr] at hle; simp at hle
          | some c2 =>
            rw [hr] at hle
            simp at hle
            rw [hle.1]
        | wall l => exact ih true c g2 hle
        | snakeE s => exact ih true c g2 hle
      · rw [if_neg hc] at hle
        exact ih go c g2 hle

theorem respawnMouse_mem (draws : List Position) (snakeL : List Segment)
    (c : Position) (hc : respawnMouse draws snakeL = some c) : c ∈ draws :=
  List.mem_of_find?_eq_some hc

theorem respawnMouse_free (draws : List Position) (snakeL : List Segment)
    (c : Position) (hc : respawnMouse draws snakeL = some c) :
    ∀ s ∈ snakeL, s.pos ≠ c := by
  intro s hs hcon
  have hp := List.find?_some hc
  rw [Bool.not_eq_true'] at hp
  have h2 := (List.any_eq_false.mp hp) s hs
  apply h2
  rw [hcon]
  simp

/-! ### Food collision (C1) -/

/-- C1: on a tick where the head overlaps the food (an in-range food cell
and an on-grid head), the resolver adds exactly `SCORE_DELTA = 100` to the
score, replaces the consumed food by the first oracle draw that coincides
with no current (pre-growth) snake segment, appends exactly one tail
segment at the tail position plus the reverse of the tail direction
(inheriting the tail direction, id = tail id + 1), emits one `Grow` sound,
and resolves nothing else: every other field, including the game state, is
unchanged. -/
theorem C1_food_collision (raws : List (ℚ × ℚ)) (w : World) (h : Segment)
    (t : List Segment) (c : Position)
    (hs : w.snake = h :: t)
    (hmr : MouseInRange w.mouse)
    (hint : IntegralPos h.pos)
    (hcol : collides (blockAabb h.pos) (blockAabb w.mouse) = true)
    (hc : respawnMouse (raws.map fun r => mouseNew r.1 r.2) w.snake = some c) :
    checkCollisionsSys raws w =
      some ({ w with
                score := w.score + SCORE_DELTA
                mouse := c
                snake := w.snake ++
                  [{ id := ((h :: t).getLast (List.cons_ne_nil h t)).id + 1
                     pos := ((h :: t).getLast (List.cons_ne_nil h t)).pos.apply_vel
                       ((h :: t).getLast (List.cons_ne_nil h t)).dir.reverse.velocity
                     dir := ((h :: t).getLast (List.cons_ne_nil h t)).dir }] },
        [.Grow]) := by
  have hpm : h.pos = w.mouse := (collides_block_iff h.pos w.mouse hint hmr.1).1 hcol
  obtain ⟨hmint, hx1, hx2, hy1, hy2⟩ := hmr
  have hb : ∀ l : WallLocation, collides (blockAabb h.pos) (wallAabb l) = false := by
    intro l
    exact collides_wall_false h.pos (hpm ▸ hx1) (hpm ▸ hx2) (hpm ▸ hy1)
      (hpm ▸ hy2) l
  obtain ⟨sn, mo, sc, df, du, qu, st⟩ := w
  simp only at hs hc hcol hb
  subst hs
  have hle : loopEnts h (h :: t) (raws.map fun r => mouseNew r.1 r.2) false
      ([Ent.wall .Left, Ent.wall .Top, Ent.wall .Right, Ent.wall .Bottom] ++
        (Ent.mouseE mo :: (h :: t).map Ent.snakeE)) = some (some c, false) := by
    rw [loopEnts_skips_over h (h :: t) _ false _ _ ?_]
    · simp only [loopEnts]
      rw [if_neg (by simp [skipEnt]), if_pos (by simpa [entAabb] using hcol), hc]
    · intro e he
      right
      fin_cases he <;> exact hb _
  simp only [checkCollisionsSys, colliderList]
  rw [show ([Ent.wall .Left, Ent.wall .Top, Ent.wall .Right, Ent.wall .Bottom]
      ++ [Ent.mouseE mo] ++ (h :: t).map Ent.snakeE)
      = ([Ent.wall .Left, Ent.wall .Top, Ent.wall .Right, Ent.wall .Bottom] ++
        (Ent.mouseE mo :: (h :: t).map Ent.snakeE)) by simp, hle]
  simp [Position.apply_vel]

/-- Witness for C1 at the concrete world `eatW` with oracle draw `(5,5)`. -/
theorem C1_witness : checkCollisionsSys [(5, 5)] eatW = some (eatW2, [.Grow]) := by
  have hmain := C1_food_collision [(5, 5)] eatW ⟨0, ⟨0, 0⟩, .Right⟩
    [⟨1, ⟨-19, 0⟩, .Right⟩] ⟨5, 5⟩ (by with_unfolding_all rfl)
    (by with_unfolding_all decide) (by with_unfolding_all decide)
    (by with_unfolding_all decide) (by with_unfolding_all decide)
  rw [hmain]
  with_unfolding_all decide

/-! ### Fatal collision (C4) -/

/-- C4: on a tick where the head overlaps a wall or a snake segment other
than the head itself (self-overlap being skipped by id), and does not
overlap the food, the resolver sets the game state to `GameOver` and does
nothing else: score, snake, food and every other field are unchanged and
no sound is emitted. -/
theorem C4_fatal_collision (raws : List (ℚ × ℚ)) (w : World) (h : Segment)
    (t : List Segment)
    (hs : w.snake = h :: t)
    (hnm : collides (blockAabb h.pos) (blockAabb w.mouse) = false)
    (hhit : (∃ l : WallLocation,
        collides (blockAabb h.pos) (wallAabb l) = true) ∨
      (∃ s ∈ w.snake, s.id ≠ h.id ∧
        collides (blockAabb h.pos) (blockAabb s.pos) = true)) :
    checkCollisionsSys raws w = some ({ w with state := .GameOver }, []) := by
  obtain ⟨sn, mo, sc, df, du, qu, st⟩ := w
  simp only at hs hnm hhit
  subst hs
  have hm : ∀ p, Ent.mouseE p ∈ colliderList
      ⟨h :: t, mo, sc, df, du, qu, st⟩ →
      collides (blockAabb h.pos) (entAabb (Ent.mouseE p)) = false := by
    intro p hp
    simp only [colliderList, List.mem_append, List.mem_map, List.mem_cons,
      List.mem_singleton] at hp
    rcases hp with (hp | hp) | hp
    · simp at hp
    · rw [show p = mo by simpa using hp]
      simpa [entAabb] using hnm
    · obtain ⟨s, _, hps⟩ := hp
      simp at hps
  have hany : (colliderList ⟨h :: t, mo, sc, df, du, qu, st⟩).any
      (fun e => !skipEnt h e &&
        collides (blockAabb h.pos) (entAabb e)) = true := by
    rw [List.any_eq_true]
    rcases hhit with ⟨l, hl⟩ | ⟨s, hsm, hsid, hsc⟩
    · refine ⟨Ent.wall l, ?_, ?_⟩
      · simp only [colliderList, List.mem_append]
        exact Or.inl (Or.inl (by cases l <;> simp))
      · simpa [skipEnt, entAabb] using hl
    · refine ⟨Ent.snakeE s, ?_, ?_⟩
      · simp only [colliderList, List.mem_append]
        exact Or.inr (List.mem_map_of_mem Ent.snakeE hsm)
      · simpa [skipEnt, entAabb, hsid] using hsc
  have hle := loopEnts_no_mouse h (h :: t)
    ((raws.map fun r => mouseNew r.1 r.2)) (colliderList
      ⟨h :: t, mo, sc, df, du, qu, st⟩) false hm
  rw [hany] at hle
  simp only [checkCollisionsSys]
  rw [hle]
  simp

/-- Witness for C4 at the concrete world `crashW`, whose head overlaps its
second segment. -/
theorem C4_witness :
    checkCollisionsSys [] crashW = some ({ crashW with state := .GameOver }, []) :=
  C4_fatal_collision [] crashW ⟨0, ⟨3, 4⟩, .Right⟩ [⟨1, ⟨3, 4⟩, .Up⟩]
    (by with_unfolding_all rfl) (by with_unfolding_all decide)
    (Or.inr ⟨⟨1, ⟨3, 4⟩, .Up⟩, by with_unfolding_all decide,
      by with_unfolding_all decide, by with_unfolding_all decide⟩)

/-! ### Food spawn occupancy (C5) -/

/-- Counterexample to C5 as stated: the initial spawn during `setup`
performs no occupancy check, so with raw draws `(0, 0)` the food spawns
exactly on a snake segment (the head). -/
theorem C5_counterexample :
    (initialWorld 0 0).mouse ∈ (initialWorld 0 0).snake.map Segment.pos := by
  with_unfolding_all decide

/-- C5 (amended): for the respawn after a food consumption, the food's
position coincides with no segment of the pre-growth snake (the snake as
collected at the start of `check_collisions`; the tail segment appended by
the same resolution is not part of that check, and the initial spawn in
`setup` checks nothing). -/
theorem C5_respawn_free (raws : List (ℚ × ℚ)) (w w2 : World)
    (he : checkCollisionsSys raws w = some (w2, [.Grow])) :
    ∀ s ∈ w.snake, s.pos ≠ w2.mouse := by
  obtain ⟨sn, mo, sc, df, du, qu, st⟩ := w
  cases hs : sn with
  | nil =>
    subst hs
    simp [checkCollisionsSys] at he
  | cons h t =>
    subst hs
    simp only [checkCollisionsSys] at he
    cases hle : loopEnts h (h :: t) (raws.map fun r => mouseNew r.1 r.2) false
        (colliderList ⟨h :: t, mo, sc, df, du, qu, st⟩) with
    | none => rw [hle] at he; simp at he
    | some p =>
      obtain ⟨op, go⟩ := p
      cases op with
      | none => rw [hle] at he; simp at he
      | some c =>
        rw [hle] at he
        simp only [Option.some.injEq, Prod.mk.injEq] at he
        have hresp : respawnMouse (raws.map fun r => mouseNew r.1 r.2)
            (h :: t) = some c :=
          loopEnts_eat_respawn _ _ _ _ _ _ _ hle
        have hfree := respawnMouse_free _ _ _ hresp
        intro s hsm
        have hmo : w2.mouse = c := by rw [← he.1]
        rw [hmo]
        exact hfree s hsm

/-- Witness for the amended C5 at the concrete world `eatW`. -/
theorem C5_witness :
    (eatW.snake.all fun s => decide (s.pos ≠ eatW2.mouse)) = true :=
  List.all_eq_true.mpr fun s hs => by
    simpa using C5_respawn_free [(5, 5)] eatW eatW2
      (by with_unfolding_all decide) s hs

/-! ### Unchecked growth (C10) -/

/-- C10: whenever a food consumption resolves, the new tail segment is
created unconditionally at the tail position plus the reverse of the tail
direction — the definition imposes no occupancy or bounds check on that
cell. -/
theorem C10_growth_unchecked (raws : List (ℚ × ℚ)) (w w2 : World)
    (h : Segment) (t : List Segment)
    (hs : w.snake = h :: t)
    (he : checkCollisionsSys raws w = some (w2, [.Grow])) :
    w2.snake = w.snake ++
      [{ id := ((h :: t).getLast (List.cons_ne_nil h t)).id + 1
         pos := ((h :: t).getLast (List.cons_ne_nil h t)).pos.apply_vel
           ((h :: t).getLast (List.cons_ne_nil h t)).dir.reverse.velocity
         dir := ((h :: t).getLast (List.cons_ne_nil h t)).dir }] := by
  obtain ⟨sn, mo, sc, df, du, qu, st⟩ := w
  simp only at hs
  subst hs
  simp only [checkCollisionsSys] at he
  cases hle : loopEnts h (h :: t) (raws.map fun r => mouseNew r.1 r.2) false
      (colliderList ⟨h :: t, mo, sc, df, du, qu, st⟩) with
  | none => rw [hle] at he; simp at he
  | some p =>
    obtain ⟨op, go⟩ := p
    cases op with
    | none => rw [hle] at he; simp at he
    | some c =>
      rw [hle] at he
      simp only [Option.some.injEq, Prod.mk.injEq] at he
      rw [← he.1]
      simp [Position.apply_vel]

/-- Witness for C10: in `eatW` the tail sits one cell from the left wall
and faces `Right`, so the unconditionally created segment lands at
`(-20, 0)` — a cell overlapping the left wall — while the tick resolves as
a plain food consumption and the game keeps running. -/
theorem C10_witness :
    eatW2.snake = eatW.snake ++
      [{ id := ((⟨0, ⟨0, 0⟩, .Right⟩ :: [⟨1, ⟨-19, 0⟩, .Right⟩] :
            List Segment).getLast (by simp)).id + 1
         pos := ((⟨0, ⟨0, 0⟩, .Right⟩ :: [⟨1, ⟨-19, 0⟩, .Right⟩] :
            List Segment).getLast (by simp)).pos.apply_vel
           ((⟨0, ⟨0, 0⟩, .Right⟩ :: [⟨1, ⟨-19, 0⟩, .Right⟩] :
            List Segment).getLast (by simp)).dir.reverse.velocity
         dir := ((⟨0, ⟨0, 0⟩, .Right⟩ :: [⟨1, ⟨-19, 0⟩, .Right⟩] :
            List Segment).getLast (by simp)).dir }] ∧
    collides (blockAabb ⟨-20, 0⟩) (wallAabb .Left) = true ∧
    eatW2.state = .Running :=
  ⟨C10_growth_unchecked [(5, 5)] eatW eatW2 ⟨0, ⟨0, 0⟩, .Right⟩
      [⟨1, ⟨-19, 0⟩, .Right⟩] (by with_unfolding_all rfl)
      (by with_unfolding_all decide),
    by with_unfolding_all decide, by with_unfolding_all decide⟩

/-! ### Grid integrality (C9) -/

theorem initialSnake_integral : ∀ s ∈ initialSnake, IntegralPos s.pos := by
  with_unfolding_all decide

theorem mouseNew_integral (rx ry : ℚ) : IntegralPos (mouseNew rx ry) :=
  ⟨qInt_intCast _, qInt_intCast _⟩

theorem velocity_qInt (d : Direction) : qInt d.velocity.x ∧ qInt d.velocity.y := by
  cases d <;> exact ⟨by with_unfolding_all decide, by with_unfolding_all decide⟩

theorem apply_vel_integral (p : Position) (v : Velocity) (hp : IntegralPos p)
    (hx : qInt v.x) (hy : qInt v.y) : IntegralPos (p.apply_vel v) :=
  ⟨qInt_add _ _ hp.1 hx, qInt_add _ _ hp.2 hy⟩

theorem movePass_integral (prev : Option Direction) (l : List Segment)
    (hl : ∀ s ∈ l, IntegralPos s.pos) :
    ∀ s ∈ movePass prev l, IntegralPos s.pos := by
  induction l generalizing prev with
  | nil => simp [movePass]
  | cons a rest ih =>
    intro s hs
    simp only [movePass, List.mem_cons] at hs
    rcases hs with rfl | hs
    · exact apply_vel_integral a.pos _ (hl a (List.mem_cons_self a rest))
        (velocity_qInt a.dir).1 (velocity_qInt a.dir).2
    · exact ih (some a.dir) (fun x hx => hl x (List.mem_cons_of_mem a hx)) s hs

theorem moveSnakeSys_integral (fired : Bool) (keys : List KeyCode)
    (w w2 : World) (hmv : moveSnakeSys fired keys w = some w2)
    (hw : IntegralWorld w) : IntegralWorld w2 := by
  cases hsn : w.snake with
  | nil => simp [moveSnakeSys, hsn] at hmv
  | cons h t =>
    cases fired with
    | false =>
      rw [moveSnakeSys_not_fired w keys w2 hmv]
      exact hw
    | true =>
      rw [moveSnakeSys_fired w h t keys w2 hsn hmv]
      refine ⟨?_, hw.2⟩
      intro s hs
      refine movePass_integral none _ ?_ s hs
      intro x hx
      rcases List.mem_cons.mp hx with rfl | hx2
      · exact hw.1 h (hsn ▸ List.mem_cons_self h t)
      · exact hw.1 x (hsn ▸ List.mem_cons_of_mem h hx2)

theorem checkCollisionsSys_integral (raws : List (ℚ × ℚ)) (w w2 : World)
    (snds : List SoundType) (hcc : checkCollisionsSys raws w = some (w2, snds))
    (hw : IntegralWorld w) : IntegralWorld w2 := by
  obtain ⟨sn, mo, sc, df, du, qu, st⟩ := w
  obtain ⟨hsn, hmo⟩ := hw
  simp only at hsn hmo
  cases hs : sn with
  | nil =>
    subst hs
    simp [checkCollisionsSys] at hcc
  | cons h t =>
    subst hs
    simp only [checkCollisionsSys] at hcc
    cases hle : loopEnts h (h :: t) (raws.map fun r => mouseNew r.1 r.2) false
        (colliderList ⟨h :: t, mo, sc, df, du, qu, st⟩) with
    | none => rw [hle] at hcc; simp at hcc
    | some p =>
      obtain ⟨op, go⟩ := p
      cases op with
      | none =>
        rw [hle] at hcc
        simp only [Option.some.injEq, Prod.mk.injEq] at hcc
        rw [← hcc.1]
        exact ⟨hsn, hmo⟩
      | some c =>
        rw [hle] at hcc
        simp only [Option.some.injEq, Prod.mk.injEq] at hcc
        rw [← hcc.1]
        have hresp : respawnMouse (raws.map fun r => mouseNew r.1 r.2)
            (h :: t) = some c :=
          loopEnts_eat_respawn _ _ _ _ _ _ _ hle
        have hcmem := respawnMouse_mem _ _ _ hresp
        obtain ⟨r, _, hr2⟩ := List.mem_map.mp hcmem
        constructor
        · intro s hs
          simp only [List.cons_append, List.mem_cons, List.mem_append,
            List.mem_singleton] at hs
          rcases hs with rfl | hs | rfl | hnil
          · exact hsn s (List.mem_cons_self s t)
          · exact hsn s (List.mem_cons_of_mem h hs)
          · refine apply_vel_integral _ _ ?_ (velocity_qInt _).1 (velocity_qInt _).2
            exact hsn _ (List.getLast_mem (List.cons_ne_nil h t))
          · simp at hnil
        · rw [← hr2]
          exact mouseNew_integral r.1 r.2

theorem updateDifficultySys_preserve (w : World) :
    (updateDifficultySys w).1.snake = w.snake ∧
    (updateDifficultySys w).1.mouse = w.mouse := by
  by_cases h : difficultyOf w.score = w.difficulty
  · rw [updateDifficulty_of_eq w h]
    exact ⟨rfl, rfl⟩
  · rw [updateDifficulty_of_ne w h]
    exact ⟨rfl, rfl⟩

theorem handleStateInput_preserve (keys : List KeyCode) (w : World) :
    (handleStateInput keys w).snake = w.snake ∧
    (handleStateInput keys w).mouse = w.mouse := by
  obtain ⟨sn, mo, sc, df, du, qu, st⟩ := w
  cases st <;> simp only [handleStateInput] <;> split <;> exact ⟨rfl, rfl⟩

theorem exitGameOverSeq_integral (rx ry : ℚ) (w : World) :
    IntegralWorld (exitGameOverSeq rx ry w) :=
  ⟨fun s hs => initialSnake_integral s hs, mouseNew_integral rx ry⟩

theorem runningTick_integral (fired : Bool) (keys : List KeyCode)
    (raws : List (ℚ × ℚ)) (w w2 : World) (snds : List SoundType)
    (hrt : runningTick fired keys raws w = some (w2, snds))
    (hw : IntegralWorld w) : IntegralWorld w2 := by
  unfold runningTick at hrt
  dsimp only at hrt
  cases hm : moveSnakeSys fired keys (updateDifficultySys w).1 with
  | none => rw [hm] at hrt; simp at hrt
  | some wm =>
    rw [hm] at hrt
    dsimp only at hrt
    cases hc : checkCollisionsSys raws wm with
    | none => rw [hc] at hrt; simp at hrt
    | some p2 =>
      rw [hc] at hrt
      dsimp only at hrt
      simp only [Option.some.injEq, Prod.mk.injEq] at hrt
      have hd : IntegralWorld (updateDifficultySys w).1 := by
        obtain ⟨h1, h2⟩ := updateDifficultySys_preserve w
        exact ⟨h1 ▸ hw.1, h2 ▸ hw.2⟩
      have hmi := moveSnakeSys_integral fired keys _ wm hm hd
      obtain ⟨c1, c2⟩ := p2
      have hci := checkCollisionsSys_integral raws wm c1 c2 hc hmi
      rw [← hrt.1]
      exact hci

/-- C9: the initial snake and every food spawn are on the integer grid,
each direction's velocity is one of the four integer unit vectors,
applying an integer velocity to a grid position stays on the grid, and
consequently every reachable world has all segment and food positions at
integer coordinates. -/
theorem C9_integer_grid :
    (∀ s ∈ initialSnake, IntegralPos s.pos) ∧
    (∀ rx ry : ℚ, IntegralPos (mouseNew rx ry)) ∧
    (∀ d : Direction, d.velocity = ⟨-1, 0⟩ ∨ d.velocity = ⟨1, 0⟩ ∨
      d.velocity = ⟨0, -1⟩ ∨ d.velocity = ⟨0, 1⟩) ∧
    (∀ (p : Position) (v : Velocity), IntegralPos p → qInt v.x → qInt v.y →
      IntegralPos (p.apply_vel v)) ∧
    (∀ w : World, Reachable w → IntegralWorld w) := by
  refine ⟨initialSnake_integral, mouseNew_integral, ?_, apply_vel_integral, ?_⟩
  · intro d
    cases d
    · exact Or.inl rfl
    · exact Or.inr (Or.inl rfl)
    · exact Or.inr (Or.inr (Or.inl rfl))
    · exact Or.inr (Or.inr (Or.inr rfl))
  · intro w hw
    induction hw with
    | start rx ry =>
      exact ⟨fun s hs => initialSnake_integral s hs, mouseNew_integral rx ry⟩
    | frame w keys rx ry hw ih =>
      unfold applyStateInput
      dsimp only
      split
      · exact exitGameOverSeq_integral rx ry _
      · obtain ⟨h1, h2⟩ := handleStateInput_preserve keys w
        exact ⟨h1 ▸ ih.1, h2 ▸ ih.2⟩
    | tick w fired keys raws w2 snds hw hst hrt ih =>
      exact runningTick_integral fired keys raws w w2 snds hrt ih

/-- Witness for C9: the invariant evaluated at a concrete reachable
world. -/
theorem C9_witness : IntegralWorld (initialWorld 0 0) :=
  C9_integer_grid.2.2.2.2 (initialWorld 0 0) (Reachable.start 0 0)

end Theorems

end RustSnake
